import Mathlib

/-
Verification of the column preprocessing component
(src/components/data_transformation.py).

The program builds a two-branch sklearn preprocessing pipeline over a fixed
tabular schema (student exam scores), fits it on the training table, applies
it to the training and test tables, appends the raw target column, persists
the fitted preprocessor, and returns both matrices plus the artifact path.

Embedding conventions:
- numpy float64 values are modelled as exact rationals (ℚ); a missing value
  (NaN in a numeric column, NaN/None in a categorical column) is modelled
  as `Option.none`;
- a dataframe row is a structure with one field per schema column;
- fallible steps return `Except PyError`; the blanket `try/except` boundary
  of each method is modelled by wrapping the raw error in `CustomException`;
- the file system touched by `save_object` is modelled as an explicit
  association list threaded through the driver;
- `numpy.sqrt` (used inside `StandardScaler` for the scale factor
  `sqrt(variance)`) is modelled by an exact rational square root that agrees
  with the real square root on perfect rational squares; statements about
  unit variance carry the hypothesis that the fitted scale squares back to
  the fitted variance, i.e. that the standard deviation is exactly
  representable.
-/

/-! ## Generic executable helpers -/

/-- Insert an element into a list in front of the first element that is not
below it, according to the boolean order `le`. -/
def insertBy (le : α → α → Bool) (x : α) : List α → List α
  | [] => [x]
  | y :: ys => if le x y then x :: y :: ys else y :: insertBy le x ys

/-- Insertion sort by the boolean order `le`; models `numpy.sort` /
`numpy.unique` ordering of category values. -/
def sortBy (le : α → α → Bool) (l : List α) : List α := l.foldr (insertBy le) []

/-- Strict comparison of characters by code point. -/
def charLtN (a b : Char) : Bool := a.val.toNat < b.val.toNat

/-- Lexicographic comparison of character lists by code point. -/
def strLeAux : List Char → List Char → Bool
  | [], _ => true
  | _ :: _, [] => false
  | a :: as, b :: bs =>
    if charLtN a b then true else if charLtN b a then false else strLeAux as bs

/-- Lexicographic order on strings by code point, the order Python and
numpy use when sorting category strings. -/
def strLe (a b : String) : Bool := strLeAux a.data b.data

/-- Largest natural number whose square does not exceed `n` (linear search,
so that it evaluates by kernel reduction). -/
def natSqrtLin (n : Nat) : Nat :=
  (List.range (n + 1)).foldl (fun acc k => if k * k ≤ n then k else acc) 0

/-- Rational square root: exact on perfect rational squares.  Models
`numpy.sqrt` on the nonnegative rationals standing in for float64 values. -/
def ratSqrt (q : ℚ) : ℚ := mkRat (natSqrtLin q.num.toNat) (natSqrtLin q.den)

/-- Apply a fallible transformation to every element of a list, aborting at
the first failure; models applying a fitted transformer row by row. -/
def mapE (f : α → Except ε β) : List α → Except ε (List β)
  | [] => .ok []
  | x :: xs => do
    let y ← f x
    let ys ← mapE f xs
    return y :: ys

/-- Whether an `Except` computation succeeded. -/
def isOkE : Except ε α → Bool
  | .ok _ => true
  | .error _ => false

/-! ## Statistics used by the fitted transformers -/

/-- Arithmetic mean of a list of rationals (`0` on the empty list, as the
rational `0 / 0` is `0`). -/
def meanQ (l : List ℚ) : ℚ := l.sum / (l.length : ℚ)

/-- Population variance (denominator `n`), as computed by
`sklearn.preprocessing.StandardScaler`. -/
def varQ (l : List ℚ) : ℚ :=
  ((l.map (fun x => (x - meanQ l) * (x - meanQ l))).sum) / (l.length : ℚ)

/-- Median as computed by `numpy.median`: middle element of the sorted list
for odd length, average of the two middle elements for even length. -/
def medianQ (l : List ℚ) : ℚ :=
  let s := sortBy (fun a b : ℚ => decide (a ≤ b)) l
  let n := s.length
  if n = 0 then 0
  else if n % 2 = 1 then s.getD (n / 2) 0
  else (s.getD (n / 2 - 1) 0 + s.getD (n / 2) 0) / 2

/-- Most frequent value of a list of strings, ties broken towards the
smallest value, as in `SimpleImputer(strategy="most_frequent")` (`""` on the
empty list). -/
def mostFrequent (l : List String) : String :=
  match sortBy strLe l.dedup with
  | [] => ""
  | c :: cs => cs.foldl (fun best x => if List.count best l < List.count x l then x else best) c

/-! ## The fixed schema -/

/-- The two numeric feature columns of the schema. -/
inductive NumCol where
  | writing_score
  | reading_score
deriving DecidableEq

/-- The five categorical feature columns of the schema. -/
inductive CatCol where
  | gender
  | race_ethnicity
  | parental_level_of_education
  | lunch
  | test_preparation_course
deriving DecidableEq, Fintype

/-- One row of the feature table (the input dataframe with the target
column dropped).  `none` models a missing value. -/
structure FeatureRow where
  gender : Option String
  race_ethnicity : Option String
  parental_level_of_education : Option String
  lunch : Option String
  test_preparation_course : Option String
  writing_score : Option ℚ
  reading_score : Option ℚ
deriving DecidableEq

/-- One row of a full input table: the seven feature columns plus the
`math_score` target column. -/
structure Row where
  features : FeatureRow
  math_score : ℚ
deriving DecidableEq

/-- Projection of a categorical schema column out of a feature row. -/
def catSel : CatCol → FeatureRow → Option String
  | .gender, r => r.gender
  | .race_ethnicity, r => r.race_ethnicity
  | .parental_level_of_education, r => r.parental_level_of_education
  | .lunch, r => r.lunch
  | .test_preparation_course, r => r.test_preparation_course

/-- Projection of a numeric schema column out of a feature row. -/
def numSel : NumCol → FeatureRow → Option ℚ
  | .writing_score, r => r.writing_score
  | .reading_score, r => r.reading_score

/-- The `numerical_columns` list of `get_data_transformer_object`. -/
def numerical_columns : List NumCol := [.writing_score, .reading_score]

/-- The `categorical_columns` list of `get_data_transformer_object`. -/
def categorical_columns : List CatCol :=
  [.gender, .race_ethnicity, .parental_level_of_education, .lunch, .test_preparation_course]

/-! ## The numeric pipeline: median imputer, then standard scaler -/

/-- Fitted state of the numeric pipeline on one column:
the imputation median, and the scaler statistics (mean, variance, scale). -/
structure NumColFit where
  median : ℚ
  mean : ℚ
  var : ℚ
  scale : ℚ
deriving DecidableEq

/-- Fit `num_pipeline` on one training column: the imputer learns the median
of the observed values; the scaler then learns mean, variance, and scale
`sqrt(var)` of the imputed column (a zero variance yields scale 1, as in
sklearn's handling of constant columns). -/
def fitNumCol (col : List (Option ℚ)) : NumColFit :=
  let med := medianQ (col.filterMap id)
  let imputed := col.map (fun x => x.getD med)
  let v := varQ imputed
  { median := med
    mean := meanQ imputed
    var := v
    scale := if v = 0 then 1 else ratSqrt v }

/-- Transform one value with the fitted numeric pipeline: impute a missing
value with the fitted median, then center by the fitted mean and divide by
the fitted scale. -/
def transformNumCol (f : NumColFit) (x : Option ℚ) : ℚ :=
  (x.getD f.median - f.mean) / f.scale

/-! ## The categorical pipeline: mode imputer, one-hot encoder, scaler -/

/-- Errors of the embedded Python fragments that can fail. -/
inductive PyError where
  | fileReadError (path : String)
  | emptyTrainingData
  | unknownCategory (value : String)
deriving DecidableEq

/-- Fitted state of the categorical pipeline on one column: the imputation
mode, the one-hot categories observed in training (sorted, deduplicated),
and the per-one-hot-column scale factors. -/
structure CatColFit where
  most_frequent : String
  categories : List String
  scales : List ℚ
deriving DecidableEq

/-- Fit `cat_pipeline` on one training column: the imputer learns the most
frequent observed value; the one-hot encoder learns the sorted distinct
values of the imputed column; the scaler (`with_mean = False`) learns one
scale factor `sqrt(var)` per one-hot output column (1 for a constant
column). -/
def fitCatCol (col : List (Option String)) : CatColFit :=
  let mf := mostFrequent (col.filterMap id)
  let imputed := col.map (fun x => x.getD mf)
  let cats := sortBy strLe imputed.dedup
  { most_frequent := mf
    categories := cats
    scales := cats.map (fun c =>
      let v := varQ (imputed.map (fun w => if w = c then (1 : ℚ) else 0))
      if v = 0 then 1 else ratSqrt v) }

/-- Transform one value with the fitted categorical pipeline: impute a
missing value with the fitted mode, one-hot encode against the fitted
categories (the encoder's default unknown handling raises on a value not
seen at fit time), then divide each one-hot column by its fitted scale
without mean centering. -/
def transformCatCol (f : CatColFit) (x : Option String) : Except PyError (List ℚ) :=
  let v := x.getD f.most_frequent
  if v ∈ f.categories then
    .ok ((f.categories.zip f.scales).map (fun p => (if p.1 = v then (1 : ℚ) else 0) / p.2))
  else
    .error (.unknownCategory v)

/-! ## The composed column transformer -/

/-- Fitted state of the whole `ColumnTransformer`: one fitted numeric
pipeline per numeric column, one fitted categorical pipeline per
categorical column. -/
structure Preprocessor where
  writing_score : NumColFit
  reading_score : NumColFit
  gender : CatColFit
  race_ethnicity : CatColFit
  parental_level_of_education : CatColFit
  lunch : CatColFit
  test_preparation_course : CatColFit
deriving DecidableEq

/-- The fitted numeric pipeline of a given numeric column. -/
def numFitOf : Preprocessor → NumCol → NumColFit
  | p, .writing_score => p.writing_score
  | p, .reading_score => p.reading_score

/-- The fitted categorical pipeline of a given categorical column. -/
def catFitOf : Preprocessor → CatCol → CatColFit
  | p, .gender => p.gender
  | p, .race_ethnicity => p.race_ethnicity
  | p, .parental_level_of_education => p.parental_level_of_education
  | p, .lunch => p.lunch
  | p, .test_preparation_course => p.test_preparation_course

/-- The fitted state obtained by fitting every branch of the column
transformer on the corresponding training feature column. -/
def fitPre (rows : List FeatureRow) : Preprocessor where
  writing_score := fitNumCol (rows.map (fun r => r.writing_score))
  reading_score := fitNumCol (rows.map (fun r => r.reading_score))
  gender := fitCatCol (rows.map (fun r => r.gender))
  race_ethnicity := fitCatCol (rows.map (fun r => r.race_ethnicity))
  parental_level_of_education := fitCatCol (rows.map (fun r => r.parental_level_of_education))
  lunch := fitCatCol (rows.map (fun r => r.lunch))
  test_preparation_course := fitCatCol (rows.map (fun r => r.test_preparation_course))

/-- Fitting the preprocessor on a feature table; sklearn raises on an empty
table (`0 sample(s)`), otherwise every branch learns its statistics from
its training column. -/
def Preprocessor.fit (rows : List FeatureRow) : Except PyError Preprocessor :=
  if rows.isEmpty then .error .emptyTrainingData else .ok (fitPre rows)

/-- Transform one feature row with the fitted preprocessor: the numeric
pipeline outputs come first (in `numerical_columns` order), then the
concatenated one-hot blocks of the categorical columns (in
`categorical_columns` order). -/
def transformRow (p : Preprocessor) (r : FeatureRow) : Except PyError (List ℚ) := do
  let nums := numerical_columns.map (fun c => transformNumCol (numFitOf p c) (numSel c r))
  let cats ← mapE (fun c => transformCatCol (catFitOf p c) (catSel c r)) categorical_columns
  return nums ++ cats.flatten

/-- Transform a feature table row by row with the fitted preprocessor. -/
def Preprocessor.transform (p : Preprocessor) (rows : List FeatureRow) :
    Except PyError (List (List ℚ)) :=
  mapE (transformRow p) rows

/-- The `transform` method call as seen by a caller holding the fitted
estimator: it returns the transformed matrix and leaves the fitted state
unchanged (sklearn's `transform` does not modify the estimator). -/
def transformCall (p : Preprocessor) (rows : List FeatureRow) :
    Except PyError (List (List ℚ)) × Preprocessor :=
  (p.transform rows, p)

/-! ## The transformation driver -/

/-- `os.path.join` on two relative segments. -/
def osPathJoin (a b : String) : String := a ++ "/" ++ b

/-- The `DataTransformationConfig` dataclass: a single configured artifact
path, `os.path.join('artifacts', 'preprocessor.pkl')`. -/
structure DataTransformationConfig where
  preprocessor_obj_file_path : String := osPathJoin "artifacts" "preprocessor.pkl"
deriving DecidableEq

/-- The config instance created by `DataTransformation.__init__`. -/
def data_transformation_config : DataTransformationConfig := {}

/-- Modelled from the spec: `src/exception.CustomException` (its source is
not part of this component) wraps the original underlying cause together
with the execution context captured at the point of failure. -/
structure CustomException where
  cause : PyError
  context : String
deriving DecidableEq

/-- The durable file store, mapping artifact paths to serialized fitted
preprocessors. -/
abbrev FileSys := List (String × Preprocessor)

/-- Modelled from the spec: `src/utils.save_object` (its source is not part
of this component) serializes an object to the given path; modelled as
recording the object under the path in the file store. -/
def save_object (file_path : String) (obj : Preprocessor) (fs : FileSys) : FileSys :=
  (file_path, obj) :: fs

/-- The object stored at a path, if any. -/
def lookupFile (fs : FileSys) (path : String) : Option Preprocessor :=
  (fs.find? (fun e => e.1 == path)).map (fun e => e.2)

/-- The column grouping the unfitted `ColumnTransformer` is built from. -/
structure ColumnTransformerSpec where
  numerical_columns : List NumCol
  categorical_columns : List CatCol
deriving DecidableEq

/-- `DataTransformation.get_data_transformer_object`: builds the composed
unfitted transformer over the fixed schema; its construction cannot fail,
and any failure would be re-raised as a `CustomException` at the method
boundary. -/
def get_data_transformer_object : Except CustomException ColumnTransformerSpec :=
  .ok { numerical_columns := numerical_columns, categorical_columns := categorical_columns }

/-- The body of `initiate_data_transformation`, before the blanket
`try/except` boundary.  The two `Except PyError (List Row)` arguments are
the outcomes of `pd.read_csv(train_path)` and `pd.read_csv(test_path)`;
the `FileSys` argument is the file store `save_object` writes to.  On
success it returns the train matrix, the test matrix, the artifact path,
and the updated file store. -/
def initiateBody (train_read test_read : Except PyError (List Row)) (fs : FileSys) :
    Except PyError (List (List ℚ) × List (List ℚ) × String × FileSys) := do
  let train_df ← train_read
  let test_df ← test_read
  let input_feature_train_df := train_df.map Row.features
  let target_feature_train_df := train_df.map Row.math_score
  let input_feature_test_df := test_df.map Row.features
  let target_feature_test_df := test_df.map Row.math_score
  let preprocessor_obj ← Preprocessor.fit input_feature_train_df
  let input_feature_train_arr ← preprocessor_obj.transform input_feature_train_df
  let input_feature_test_arr ← preprocessor_obj.transform input_feature_test_df
  let train_arr := List.zipWith (fun r t => r ++ [t]) input_feature_train_arr target_feature_train_df
  let test_arr := List.zipWith (fun r t => r ++ [t]) input_feature_test_arr target_feature_test_df
  let fs2 := save_object data_transformation_config.preprocessor_obj_file_path preprocessor_obj fs
  return (train_arr, test_arr, data_transformation_config.preprocessor_obj_file_path, fs2)

/-- `DataTransformation.initiate_data_transformation`: the body above, with
every failure caught at the method boundary and re-raised as a
`CustomException` carrying the original cause and the execution context. -/
def initiate_data_transformation (train_read test_read : Except PyError (List Row))
    (fs : FileSys) :
    Except CustomException (List (List ℚ) × List (List ℚ) × String × FileSys) :=
  match initiateBody train_read test_read fs with
  | .ok r => .ok r
  | .error e => .error { cause := e, context := "initiate_data_transformation" }

/-! ## Helper lemmas: sorting -/

theorem insertBy_perm (le : α → α → Bool) (x : α) (l : List α) :
    List.Perm (insertBy le x l) (x :: l) := by
  induction l with
  | nil => exact List.Perm.refl _
  | cons y ys ih =>
    simp only [insertBy]
    split
    · exact List.Perm.refl _
    · exact (ih.cons y).trans (List.Perm.swap x y ys)

theorem sortBy_perm (le : α → α → Bool) (l : List α) : List.Perm (sortBy le l) l := by
  induction l with
  | nil => exact List.Perm.refl _
  | cons x xs ih => exact (insertBy_perm le x (sortBy le xs)).trans (ih.cons x)

theorem mem_sortBy (le : α → α → Bool) (l : List α) (a : α) :
    a ∈ sortBy le l ↔ a ∈ l :=
  (sortBy_perm le l).mem_iff

theorem length_sortBy (le : α → α → Bool) (l : List α) :
    (sortBy le l).length = l.length :=
  (sortBy_perm le l).length_eq

theorem nodup_sortBy (le : α → α → Bool) (l : List α) (h : l.Nodup) :
    (sortBy le l).Nodup :=
  ((sortBy_perm le l).nodup_iff).mpr h

/-! ## Helper lemmas: Except and mapE -/

theorem bindE_ok {e : Except ε α} {f : α → Except ε β} {b : β} :
    e.bind f = .ok b ↔ ∃ a, e = .ok a ∧ f a = .ok b := by
  cases e <;> simp [Except.bind]

theorem isOkE_exists {e : Except ε α} : isOkE e = true ↔ ∃ a, e = .ok a := by
  cases e <;> simp [isOkE]

theorem mapE_nil (f : α → Except ε β) : mapE f [] = .ok [] := rfl

theorem mapE_cons (f : α → Except ε β) (x : α) (xs : List α) :
    mapE f (x :: xs) = (f x).bind fun y => (mapE f xs).bind fun ys => .ok (y :: ys) := rfl

theorem mapE_ok_iff (f : α → Except ε β) (l : List α) (r : List β) :
    mapE f l = .ok r ↔ List.Forall₂ (fun x y => f x = .ok y) l r := by
  induction l generalizing r with
  | nil =>
    cases r <;> simp [mapE_nil]
  | cons x xs ih =>
    constructor
    · intro h
      rw [mapE_cons, bindE_ok] at h
      obtain ⟨y, hy, h⟩ := h
      rw [bindE_ok] at h
      obtain ⟨ys, hys, h⟩ := h
      cases h
      exact List.Forall₂.cons hy ((ih ys).mp hys)
    · intro h
      cases h with
      | cons hy hys =>
        rw [mapE_cons, bindE_ok]
        exact ⟨_, hy, by rw [bindE_ok]; exact ⟨_, (ih _).mpr hys, rfl⟩⟩

theorem mapE_ok_length {f : α → Except ε β} {l : List α} {r : List β}
    (h : mapE f l = .ok r) : r.length = l.length :=
  (((mapE_ok_iff f l r).mp h).length_eq).symm

theorem mapE_ok_mem {f : α → Except ε β} {l : List α} {r : List β}
    (h : mapE f l = .ok r) {y : β} (hy : y ∈ r) : ∃ x ∈ l, f x = .ok y := by
  induction l generalizing r with
  | nil =>
    rw [mapE_nil] at h
    cases h
    cases hy
  | cons a as ih =>
    rw [mapE_cons, bindE_ok] at h
    obtain ⟨b, hb, h⟩ := h
    rw [bindE_ok] at h
    obtain ⟨ys, hys, h⟩ := h
    cases h
    rcases List.mem_cons.mp hy with rfl | hy2
    · exact ⟨a, List.mem_cons_self _ _, hb⟩
    · obtain ⟨x, hx, hfx⟩ := ih hys hy2
      exact ⟨x, List.mem_cons_of_mem _ hx, hfx⟩

theorem mapE_ok_of_forall {f : α → Except ε β} {l : List α}
    (h : ∀ x ∈ l, ∃ y, f x = .ok y) : ∃ r, mapE f l = .ok r := by
  induction l with
  | nil => exact ⟨[], rfl⟩
  | cons x xs ih =>
    obtain ⟨y, hy⟩ := h x (List.mem_cons_self _ _)
    obtain ⟨r, hr⟩ := ih (fun z hz => h z (List.mem_cons_of_mem _ hz))
    exact ⟨y :: r, by rw [mapE_cons, hy, hr]; rfl⟩

theorem mapE_error_mem {f : α → Except ε β} {l : List α} {e : ε}
    (h : mapE f l = .error e) : ∃ x ∈ l, f x = .error e := by
  induction l with
  | nil => cases h
  | cons x xs ih =>
    rw [mapE_cons] at h
    cases hx : f x with
    | error e2 =>
      rw [hx] at h
      cases h
      exact ⟨x, List.mem_cons_self _ _, hx⟩
    | ok y =>
      rw [hx] at h
      cases hxs : mapE f xs with
      | error e2 =>
        rw [hxs] at h
        cases h
        obtain ⟨z, hz, hfz⟩ := ih hxs
        exact ⟨z, List.mem_cons_of_mem _ hz, hfz⟩
      | ok r =>
        rw [hxs] at h
        cases h

theorem mapE_ok_forall {f : α → Except ε β} {l : List α} {r : List β}
    (h : mapE f l = .ok r) : ∀ x ∈ l, ∃ y, f x = .ok y := by
  induction l generalizing r with
  | nil =>
    intro x hx
    cases hx
  | cons a as ih =>
    rw [mapE_cons, bindE_ok] at h
    obtain ⟨y, hy, h⟩ := h
    rw [bindE_ok] at h
    obtain ⟨ys, hys, -⟩ := h
    intro x hx
    rcases List.mem_cons.mp hx with rfl | hx2
    · exact ⟨y, hy⟩
    · exact ih hys x hx2

theorem mapE_not_ok {f : α → Except ε β} {l : List α} {x : α}
    (hx : x ∈ l) (he : ∀ y, f x ≠ .ok y) : ∃ e, mapE f l = .error e := by
  cases h : mapE f l with
  | error e => exact ⟨e, rfl⟩
  | ok r =>
    obtain ⟨y, hy⟩ := mapE_ok_forall h x hx
    exact absurd hy (he y)

theorem mapE_sum_lengths {f : α → Except ε (List γ)} {l : List α} {r : List (List γ)}
    {g : α → Nat}
    (h : mapE f l = .ok r) (hg : ∀ x ∈ l, ∀ y, f x = .ok y → y.length = g x) :
    (r.map List.length).sum = (l.map g).sum := by
  induction l generalizing r with
  | nil =>
    rw [mapE_nil] at h
    cases h
    rfl
  | cons a as ih =>
    rw [mapE_cons, bindE_ok] at h
    obtain ⟨y, hy, h⟩ := h
    rw [bindE_ok] at h
    obtain ⟨ys, hys, h⟩ := h
    cases h
    have h₁ : y.length = g a := hg a (List.mem_cons_self _ _) y hy
    have h₂ := ih hys (fun x hx => hg x (List.mem_cons_of_mem _ hx))
    simp [h₁, h₂]

/-! ## Helper lemmas: means and variances -/

theorem sum_map_div (l : List ℚ) (g : ℚ → ℚ) (s : ℚ) :
    (l.map (fun x => g x / s)).sum = (l.map g).sum / s := by
  simp only [div_eq_mul_inv]
  exact List.sum_map_mul_right l g s⁻¹

theorem sum_map_sub (l : List ℚ) (c : ℚ) :
    (l.map (fun x => x - c)).sum = l.sum - (l.length : ℚ) * c := by
  induction l with
  | nil => simp
  | cons x xs ih =>
    simp only [List.map_cons, List.sum_cons, List.length_cons, ih]
    push_cast
    ring

theorem length_mul_meanQ (l : List ℚ) : (l.length : ℚ) * meanQ l = l.sum := by
  rcases eq_or_ne l [] with rfl | h
  · simp [meanQ]
  · have hn : (l.length : ℚ) ≠ 0 :=
      Nat.cast_ne_zero.mpr (by simpa [List.length_eq_zero] using h)
    rw [meanQ]
    field_simp

theorem sum_map_center (l : List ℚ) : (l.map (fun x => x - meanQ l)).sum = 0 := by
  rw [sum_map_sub, length_mul_meanQ, sub_self]

theorem meanQ_center_div (l : List ℚ) (s : ℚ) :
    meanQ (l.map (fun x => (x - meanQ l) / s)) = 0 := by
  rw [meanQ, sum_map_div l (fun x => x - meanQ l) s, sum_map_center]
  simp

theorem varQ_scaled (l : List ℚ) (s : ℚ) :
    varQ (l.map (fun x => (x - meanQ l) / s)) = varQ l / (s * s) := by
  rw [varQ, meanQ_center_div]
  simp only [sub_zero, List.map_map, List.length_map]
  have hsq : ((fun x => x * x) ∘ fun x => (x - meanQ l) / s) =
      fun x => ((x - meanQ l) * (x - meanQ l)) / (s * s) := by
    funext x
    simp only [Function.comp_apply]
    rw [div_mul_div_comm]
  rw [hsq, sum_map_div l (fun x => (x - meanQ l) * (x - meanQ l)) (s * s), varQ,
    div_right_comm]

theorem varQ_scaled_one (l : List ℚ) (s : ℚ) (h : s * s = varQ l) (h0 : varQ l ≠ 0) :
    varQ (l.map (fun x => (x - meanQ l) / s)) = 1 := by
  rw [varQ_scaled, h, div_self h0]

/-! ## Helper lemmas: the most frequent value -/

theorem foldl_choice_mem (f : α → α → α) (hf : ∀ b x, f b x = b ∨ f b x = x)
    (c : α) (cs : List α) : cs.foldl f c ∈ c :: cs := by
  induction cs generalizing c with
  | nil => exact List.mem_singleton.mpr rfl
  | cons x xs ih =>
    have h1 : xs.foldl f (f c x) ∈ f c x :: xs := ih (f c x)
    rcases hf c x with h2 | h2 <;> rw [h2] at h1 <;>
      simp only [List.foldl_cons, h2, List.mem_cons] at * <;> tauto

theorem mostFrequent_mem (l : List String) (h : l ≠ []) : mostFrequent l ∈ l := by
  rcases hs : sortBy strLe l.dedup with _ | ⟨c, cs⟩
  · exfalso
    apply h
    have := length_sortBy strLe l.dedup
    rw [hs] at this
    exact (List.dedup_eq_nil _).mp (List.length_eq_zero.mp this.symm)
  · have hmem : cs.foldl
        (fun best x => if List.count best l < List.count x l then x else best) c ∈ c :: cs := by
      apply foldl_choice_mem
      intro b x
      by_cases hbx : List.count b l < List.count x l <;> simp [hbx]
    rw [mostFrequent, hs]
    have : mostFrequent l ∈ c :: cs := by
      rw [mostFrequent, hs] at *
      exact hmem
    rw [← hs] at hmem
    exact (List.mem_dedup).mp ((mem_sortBy _ _ _).mp hmem)

/-! ## Helper lemmas: the fitted categorical pipeline -/

theorem fitCatCol_most_frequent (col : List (Option String)) :
    (fitCatCol col).most_frequent = mostFrequent (col.filterMap id) := rfl

theorem fitCatCol_scales_length (col : List (Option String)) :
    (fitCatCol col).scales.length = (fitCatCol col).categories.length := by
  simp [fitCatCol]

theorem fitCatCol_categories_nodup (col : List (Option String)) :
    (fitCatCol col).categories.Nodup :=
  nodup_sortBy _ _ (List.nodup_dedup _)

theorem mem_fitCatCol_categories (col : List (Option String)) (v : String) :
    v ∈ (fitCatCol col).categories ↔
      v ∈ col.map (fun x => x.getD (mostFrequent (col.filterMap id))) := by
  simp only [fitCatCol]
  rw [mem_sortBy, List.mem_dedup]

theorem imputed_toFinset (col : List (Option String)) (h : col.filterMap id ≠ []) :
    (col.map (fun x => x.getD (mostFrequent (col.filterMap id)))).toFinset =
      (col.filterMap id).toFinset := by
  have hmf : mostFrequent (col.filterMap id) ∈ col.filterMap id := mostFrequent_mem _ h
  obtain ⟨omf, homf, homf2⟩ := List.mem_filterMap.mp hmf
  ext v
  simp only [List.mem_toFinset, List.mem_map, List.mem_filterMap, id_eq] at *
  constructor
  · rintro ⟨o, ho, rfl⟩
    cases o with
    | some w => exact ⟨some w, ho, rfl⟩
    | none => exact ⟨omf, homf, homf2⟩
  · rintro ⟨o, ho, rfl⟩
    exact ⟨some v, by simpa using ho, rfl⟩

theorem fitCatCol_categories_length (col : List (Option String))
    (h : col.filterMap id ≠ []) :
    (fitCatCol col).categories.length = (col.filterMap id).dedup.length := by
  simp only [fitCatCol]
  rw [length_sortBy, ← List.card_toFinset, ← List.card_toFinset, imputed_toFinset col h]

theorem transformCatCol_ok_of_mem {f : CatColFit} {x : Option String}
    (h : x.getD f.most_frequent ∈ f.categories) :
    transformCatCol f x =
      .ok ((f.categories.zip f.scales).map
        (fun p => (if p.1 = x.getD f.most_frequent then (1 : ℚ) else 0) / p.2)) := by
  simp [transformCatCol, h]

theorem transformCatCol_ok_iff (f : CatColFit) (x : Option String) :
    (∃ out, transformCatCol f x = .ok out) ↔ x.getD f.most_frequent ∈ f.categories := by
  by_cases h : x.getD f.most_frequent ∈ f.categories <;> simp [transformCatCol, h]

theorem transformCatCol_ok_length {f : CatColFit} {x : Option String} {out : List ℚ}
    (h : transformCatCol f x = .ok out) :
    out.length = (f.categories.zip f.scales).length := by
  by_cases hm : x.getD f.most_frequent ∈ f.categories
  · rw [transformCatCol_ok_of_mem hm] at h
    cases h
    rw [List.length_map]
  · simp [transformCatCol, hm] at h

theorem transformCatCol_error_eq {f : CatColFit} {x : Option String} {e : PyError}
    (h : transformCatCol f x = .error e) :
    e = .unknownCategory (x.getD f.most_frequent) := by
  by_cases hm : x.getD f.most_frequent ∈ f.categories <;> simp [transformCatCol, hm] at h
  exact h.symm

/-! ## Helper lemmas: the fitted column transformer -/

theorem catFitOf_fitPre (rows : List FeatureRow) (c : CatCol) :
    catFitOf (fitPre rows) c = fitCatCol (rows.map (catSel c)) := by
  cases c <;> rfl

theorem numFitOf_fitPre (rows : List FeatureRow) (c : NumCol) :
    numFitOf (fitPre rows) c = fitNumCol (rows.map (numSel c)) := by
  cases c <;> rfl

theorem fit_ok_of_ne_nil {rows : List FeatureRow} (h : rows ≠ []) :
    Preprocessor.fit rows = .ok (fitPre rows) := by
  simp [Preprocessor.fit, h]

theorem fit_ok_elim {rows : List FeatureRow} {p : Preprocessor}
    (h : Preprocessor.fit rows = .ok p) : p = fitPre rows ∧ rows ≠ [] := by
  by_cases he : rows = []
  · subst he
    simp [Preprocessor.fit] at h
  · rw [fit_ok_of_ne_nil he] at h
    cases h
    exact ⟨rfl, he⟩

theorem transformRow_eq (p : Preprocessor) (r : FeatureRow) :
    transformRow p r =
      (mapE (fun c => transformCatCol (catFitOf p c) (catSel c r)) categorical_columns).bind
        (fun cats =>
          .ok ((numerical_columns.map (fun c => transformNumCol (numFitOf p c) (numSel c r)))
            ++ cats.flatten)) := rfl

theorem transformRow_ok_elim {p : Preprocessor} {r : FeatureRow} {out : List ℚ}
    (h : transformRow p r = .ok out) :
    ∃ blocks,
      mapE (fun c => transformCatCol (catFitOf p c) (catSel c r)) categorical_columns
        = .ok blocks ∧
      out = (numerical_columns.map (fun c => transformNumCol (numFitOf p c) (numSel c r)))
        ++ blocks.flatten := by
  rw [transformRow_eq, bindE_ok] at h
  obtain ⟨blocks, hb, hout⟩ := h
  cases hout
  exact ⟨blocks, hb, rfl⟩

theorem transformRow_fit_ok (rows : List FeatureRow) {r : FeatureRow} (hr : r ∈ rows) :
    ∃ out, transformRow (fitPre rows) r = .ok out := by
  have hcat : ∀ c ∈ categorical_columns,
      ∃ y, transformCatCol (catFitOf (fitPre rows) c) (catSel c r) = .ok y := by
    intro c _
    rw [catFitOf_fitPre]
    refine ⟨_, transformCatCol_ok_of_mem ?_⟩
    rw [fitCatCol_most_frequent, mem_fitCatCol_categories]
    exact List.mem_map.mpr ⟨catSel c r, List.mem_map.mpr ⟨r, hr, rfl⟩, rfl⟩
  obtain ⟨blocks, hb⟩ := mapE_ok_of_forall hcat
  refine ⟨(numerical_columns.map
    (fun c => transformNumCol (numFitOf (fitPre rows) c) (numSel c r))) ++ blocks.flatten, ?_⟩
  rw [transformRow_eq, hb]
  rfl

theorem transformRow_error {p : Preprocessor} {r : FeatureRow} {e : PyError}
    (h : transformRow p r = .error e) : ∃ s, e = .unknownCategory s := by
  rw [transformRow_eq] at h
  cases hm : mapE (fun c => transformCatCol (catFitOf p c) (catSel c r)) categorical_columns with
  | ok cats =>
    rw [hm] at h
    cases h
  | error e2 =>
    rw [hm] at h
    cases h
    obtain ⟨c, -, hc⟩ := mapE_error_mem hm
    exact ⟨_, transformCatCol_error_eq hc⟩

theorem transformRow_fitPre_length {rows : List FeatureRow} {r : FeatureRow} {out : List ℚ}
    (h : transformRow (fitPre rows) r = .ok out) :
    out.length =
      2 + ((categorical_columns.map
        (fun c => (fitCatCol (rows.map (catSel c))).categories.length)).sum) := by
  obtain ⟨blocks, hb, rfl⟩ := transformRow_ok_elim h
  rw [List.length_append, List.length_map, List.length_flatten]
  have hnum : numerical_columns.length = 2 := rfl
  rw [hnum]
  congr 1
  apply mapE_sum_lengths hb
  intro c _ y hy
  rw [catFitOf_fitPre] at hy
  rw [transformCatCol_ok_length hy, List.length_zip, fitCatCol_scales_length, min_self]

theorem transform_fitPre_ok (rows rows2 : List FeatureRow)
    (hsub : ∀ r ∈ rows2, r ∈ rows) :
    ∃ out, (fitPre rows).transform rows2 = .ok out := by
  apply mapE_ok_of_forall
  intro r hr
  exact transformRow_fit_ok rows (hsub r hr)

/-! ## Helper lemmas: the driver -/

theorem initiateBody_eq (rt rte : Except PyError (List Row)) (fs : FileSys) :
    initiateBody rt rte fs =
      rt.bind fun train_df =>
      rte.bind fun test_df =>
      (Preprocessor.fit (train_df.map Row.features)).bind fun preprocessor_obj =>
      (preprocessor_obj.transform (train_df.map Row.features)).bind fun ftr =>
      (preprocessor_obj.transform (test_df.map Row.features)).bind fun fte =>
      .ok (List.zipWith (fun r t => r ++ [t]) ftr (train_df.map Row.math_score),
           List.zipWith (fun r t => r ++ [t]) fte (test_df.map Row.math_score),
           data_transformation_config.preprocessor_obj_file_path,
           save_object data_transformation_config.preprocessor_obj_file_path
             preprocessor_obj fs) := rfl

theorem initiateBody_ok_iff (train test : List Row) (fs : FileSys)
    (res : List (List ℚ) × List (List ℚ) × String × FileSys) :
    initiateBody (.ok train) (.ok test) fs = .ok res ↔
      ∃ p ftr fte,
        Preprocessor.fit (train.map Row.features) = .ok p ∧
        p.transform (train.map Row.features) = .ok ftr ∧
        p.transform (test.map Row.features) = .ok fte ∧
        res = (List.zipWith (fun r t => r ++ [t]) ftr (train.map Row.math_score),
               List.zipWith (fun r t => r ++ [t]) fte (test.map Row.math_score),
               data_transformation_config.preprocessor_obj_file_path,
               save_object data_transformation_config.preprocessor_obj_file_path p fs) := by
  rw [initiateBody_eq]
  show (Preprocessor.fit (train.map Row.features)).bind _ = .ok res ↔ _
  constructor
  · intro h
    rw [bindE_ok] at h
    obtain ⟨p, hp, h⟩ := h
    rw [bindE_ok] at h
    obtain ⟨ftr, htr, h⟩ := h
    rw [bindE_ok] at h
    obtain ⟨fte, hte, h⟩ := h
    cases h
    exact ⟨p, ftr, fte, hp, htr, hte, rfl⟩
  · rintro ⟨p, ftr, fte, hp, htr, hte, rfl⟩
    rw [hp]
    show (p.transform (train.map Row.features)).bind _ = _
    rw [htr]
    show (p.transform (test.map Row.features)).bind _ = _
    rw [hte]
    rfl

theorem initiate_ok_iff (rt rte : Except PyError (List Row)) (fs : FileSys)
    (res : List (List ℚ) × List (List ℚ) × String × FileSys) :
    initiate_data_transformation rt rte fs = .ok res ↔ initiateBody rt rte fs = .ok res := by
  rw [initiate_data_transformation]
  cases h : initiateBody rt rte fs <;> simp

theorem initiate_of_body_error {rt rte : Except PyError (List Row)} {fs : FileSys}
    {e : PyError} (h : initiateBody rt rte fs = .error e) :
    initiate_data_transformation rt rte fs =
      .error { cause := e, context := "initiate_data_transformation" } := by
  rw [initiate_data_transformation, h]

/-! ## Further helpers for the claims -/

/-- The categorical values observed (non-missing) in a feature table for one
categorical column. -/
def observedCatValues (c : CatCol) (rows : List FeatureRow) : List String :=
  (rows.map (catSel c)).filterMap id

theorem mem_categorical_columns (c : CatCol) : c ∈ categorical_columns := by
  cases c <;> simp [categorical_columns]

theorem lookupFile_save (path : String) (p : Preprocessor) (fs : FileSys) :
    lookupFile (save_object path p fs) path = some p := by
  simp [lookupFile, save_object, List.find?]

theorem mem_zipWith_append {A : List (List ℚ)} {B : List ℚ} {y : List ℚ}
    (h : y ∈ List.zipWith (fun r t => r ++ [t]) A B) :
    ∃ a ∈ A, ∃ b, y = a ++ [b] := by
  induction A generalizing B with
  | nil => cases h
  | cons a as ih =>
    cases B with
    | nil => cases h
    | cons b bs =>
      rcases List.mem_cons.mp h with rfl | h2
      · exact ⟨a, List.mem_cons_self _ _, b, rfl⟩
      · obtain ⟨a2, ha2, b2, hb2⟩ := ih h2
        exact ⟨a2, List.mem_cons_of_mem _ ha2, b2, hb2⟩

theorem exists_ok_of_isOkE {e : Except ε α} (h : isOkE e = true) : ∃ a, e = .ok a :=
  isOkE_exists.mp h

theorem body_ok_test_read {train : List Row} {rte : Except PyError (List Row)}
    {fs : FileSys} {res : List (List ℚ) × List (List ℚ) × String × FileSys}
    (h : initiateBody (.ok train) rte fs = .ok res) : ∃ test, rte = .ok test := by
  cases rte with
  | ok test => exact ⟨test, rfl⟩
  | error e => exact Except.noConfusion h

/-! ## Concrete rows and tables used by the concrete instances -/

/-- A concrete fully-populated row. -/
def rowA : Row :=
  ⟨⟨some "male", some "group A", some "high school", some "standard", some "none",
    some 60, some 70⟩, 50⟩

/-- A second concrete fully-populated row, differing from `rowA` in every
feature. -/
def rowB : Row :=
  ⟨⟨some "female", some "group B", some "some college", some "free/reduced",
    some "completed", some 80, some 90⟩, 75⟩

/-- A row whose `gender` value does not occur in the concrete training
tables built from `rowA` and `rowB`. -/
def rowU : Row :=
  ⟨⟨some "other", some "group A", some "high school", some "standard", some "none",
    some 60, some 70⟩, 50⟩

/-- A concrete numeric column with two observed values and six missing ones;
its imputed variance is 1, so the fitted scale is exactly representable. -/
def colNum : List (Option ℚ) :=
  [some 0, some 4, none, none, none, none, none, none]

/-- A concrete categorical column with a missing value. -/
def colCat : List (Option String) := [some "b", none, some "a", some "b"]

/-- The 100-row training table of the end-to-end scenario. -/
def trainScenario : List Row := List.replicate 50 rowA ++ List.replicate 50 rowB

/-- The 20-row test table of the end-to-end scenario; its rows all occur in
the training table. -/
def testScenario : List Row := List.replicate 20 rowA

/-! ## The claims -/

/-- C3: the numeric branch of the preprocessor imputes a missing value with
the training median of the column, then standardizes with training-derived
statistics: the fitted median is the median of the observed training
values; the fitted mean and variance are those of the imputed training
column; every transformed value is (imputed value − mean) / scale, so a
missing value is replaced by the median before scaling; the transformed
training column has mean zero, and has variance one whenever the fitted
scale squares back to the fitted variance and the variance is nonzero. -/
theorem numeric_branch_median_impute_then_standardize (col : List (Option ℚ)) :
    (fitNumCol col).median = medianQ (col.filterMap id) ∧
    (fitNumCol col).mean = meanQ (col.map (fun x => x.getD (fitNumCol col).median)) ∧
    (fitNumCol col).var = varQ (col.map (fun x => x.getD (fitNumCol col).median)) ∧
    (∀ x : Option ℚ, transformNumCol (fitNumCol col) x =
      (x.getD (fitNumCol col).median - (fitNumCol col).mean) / (fitNumCol col).scale) ∧
    transformNumCol (fitNumCol col) none =
      ((fitNumCol col).median - (fitNumCol col).mean) / (fitNumCol col).scale ∧
    meanQ ((col.map (fun x => x.getD (fitNumCol col).median)).map
      (fun v => transformNumCol (fitNumCol col) (some v))) = 0 ∧
    ((fitNumCol col).scale * (fitNumCol col).scale = (fitNumCol col).var →
      (fitNumCol col).var ≠ 0 →
      varQ ((col.map (fun x => x.getD (fitNumCol col).median)).map
        (fun v => transformNumCol (fitNumCol col) (some v))) = 1) := by
  have hfun : (fun v => transformNumCol (fitNumCol col) (some v)) =
      fun v => (v - meanQ (col.map (fun x => x.getD (fitNumCol col).median)))
        / (fitNumCol col).scale := by
    funext v
    rfl
  refine ⟨rfl, rfl, rfl, fun x => rfl, rfl, ?_, ?_⟩
  · rw [hfun]
    exact meanQ_center_div _ _
  · intro h1 h2
    rw [hfun]
    exact varQ_scaled_one _ _ h1 h2

/-- Concrete instance for the C3 theorem at the column `colNum` (median 2,
imputed mean 2, imputed variance 1, scale 1): the hypotheses about the
fitted scale hold there, a missing value is imputed with the median before
scaling, and the transformed training column has mean 0 and variance 1. -/
theorem numeric_branch_witness :
    (fitNumCol colNum).scale * (fitNumCol colNum).scale = (fitNumCol colNum).var ∧
    (fitNumCol colNum).var ≠ 0 ∧
    transformNumCol (fitNumCol colNum) none =
      ((fitNumCol colNum).median - (fitNumCol colNum).mean) / (fitNumCol colNum).scale ∧
    meanQ ((colNum.map (fun x => x.getD (fitNumCol colNum).median)).map
      (fun v => transformNumCol (fitNumCol colNum) (some v))) = 0 ∧
    varQ ((colNum.map (fun x => x.getD (fitNumCol colNum).median)).map
      (fun v => transformNumCol (fitNumCol colNum) (some v))) = 1 := by
  have h1 : (fitNumCol colNum).scale * (fitNumCol colNum).scale = (fitNumCol colNum).var := by
    with_unfolding_all decide
  have h2 : (fitNumCol colNum).var ≠ 0 := by
    with_unfolding_all decide
  have hc := numeric_branch_median_impute_then_standardize colNum
  exact ⟨h1, h2, hc.2.2.2.2.1, hc.2.2.2.2.2.1, hc.2.2.2.2.2.2 h1 h2⟩

/-- C4: the categorical branch of the preprocessor imputes a missing value
with the most frequent training category, then one-hot encodes against the
sorted distinct categories of the imputed training column (one binary
column per category, the categories are duplicate-free, one scale factor
per category), then divides each one-hot column by its fitted scale with no
mean subtraction. -/
theorem categorical_branch_mode_impute_onehot_scale (col : List (Option String)) :
    (fitCatCol col).most_frequent = mostFrequent (col.filterMap id) ∧
    transformCatCol (fitCatCol col) none =
      transformCatCol (fitCatCol col) (some (fitCatCol col).most_frequent) ∧
    (fitCatCol col).categories =
      sortBy strLe ((col.map (fun x => x.getD (fitCatCol col).most_frequent)).dedup) ∧
    (fitCatCol col).categories.Nodup ∧
    (fitCatCol col).scales.length = (fitCatCol col).categories.length ∧
    (∀ v ∈ (fitCatCol col).categories,
      transformCatCol (fitCatCol col) (some v) =
        .ok (((fitCatCol col).categories.zip (fitCatCol col).scales).map
          (fun pr => (if pr.1 = v then (1 : ℚ) else 0) / pr.2))) ∧
    (∀ v ∈ (fitCatCol col).categories, List.count v (fitCatCol col).categories = 1) := by
  refine ⟨rfl, rfl, rfl, fitCatCol_categories_nodup col, fitCatCol_scales_length col, ?_, ?_⟩
  · intro v hv
    have h := transformCatCol_ok_of_mem (f := fitCatCol col) (x := some v)
      (by simpa using hv)
    simpa using h
  · intro v hv
    exact List.count_eq_one_of_mem (fitCatCol_categories_nodup col) hv

/-- Concrete instance for the C4 theorem at the column `colCat` (mode "b",
categories ["a", "b"]): the missing value is imputed with the mode, and the
category "a" is one-hot encoded and scaled without centering. -/
theorem categorical_branch_witness :
    "a" ∈ (fitCatCol colCat).categories ∧
    transformCatCol (fitCatCol colCat) none =
      transformCatCol (fitCatCol colCat) (some (fitCatCol colCat).most_frequent) ∧
    transformCatCol (fitCatCol colCat) (some "a") =
      .ok (((fitCatCol colCat).categories.zip (fitCatCol colCat).scales).map
        (fun pr => (if pr.1 = "a" then (1 : ℚ) else 0) / pr.2)) ∧
    List.count "a" (fitCatCol colCat).categories = 1 := by
  have hmem : "a" ∈ (fitCatCol colCat).categories := by
    with_unfolding_all decide
  have hc := categorical_branch_mode_impute_onehot_scale colCat
  exact ⟨hmem, hc.2.1, hc.2.2.2.2.2.1 "a" hmem, hc.2.2.2.2.2.2 "a" hmem⟩

/-- C7: every failure inside the embedded methods is caught at the method
boundary and surfaced as a single wrapped exception kind carrying the
original cause and the execution context; there is no retry and no partial
recovery: the construction of the transformer always succeeds (and would
otherwise be wrapped the same way), and a call to the driver either returns
the full result of its body or raises the wrapped form of the body's
underlying error. -/
theorem error_wrapping_all_or_nothing (rt rte : Except PyError (List Row)) (fs : FileSys) :
    get_data_transformer_object =
      .ok { numerical_columns := numerical_columns,
            categorical_columns := categorical_columns } ∧
    ((∃ r, initiateBody rt rte fs = .ok r ∧
        initiate_data_transformation rt rte fs = .ok r) ∨
     (∃ e, initiateBody rt rte fs = .error e ∧
        initiate_data_transformation rt rte fs =
          .error { cause := e, context := "initiate_data_transformation" })) := by
  refine ⟨rfl, ?_⟩
  cases h : initiateBody rt rte fs with
  | ok r => exact Or.inl ⟨r, rfl, (initiate_ok_iff rt rte fs r).mpr h⟩
  | error e => exact Or.inr ⟨e, rfl, initiate_of_body_error h⟩

/-- C8: with a fitted preprocessor, `transform` is deterministic and does
not modify the fitted state: calling it twice in sequence on the same input
(the second call on the state left by the first) yields identical output
matrices, and the fitted state after each call is the original one. -/
theorem transform_idempotent (p : Preprocessor) (rows : List FeatureRow) :
    (transformCall p rows).1 = (transformCall (transformCall p rows).2 rows).1 ∧
    (transformCall p rows).2 = p ∧
    (transformCall (transformCall p rows).2 rows).2 = p :=
  ⟨rfl, rfl, rfl⟩

/-- C1: the fitted preprocessor state and the transformed training matrix
are derived from the training table only: two successful runs on the same
training table, differing only in the test table (and initial file store),
return the same training matrix and record the same fitted preprocessor
state — the fit of the training features — at the artifact path. -/
theorem fit_on_training_features_only (train : List Row)
    (t1 t2 : Except PyError (List Row)) (fs1 fs2 : FileSys)
    (r1 r2 : List (List ℚ) × List (List ℚ) × String × FileSys)
    (h1 : initiate_data_transformation (.ok train) t1 fs1 = .ok r1)
    (h2 : initiate_data_transformation (.ok train) t2 fs2 = .ok r2) :
    r1.1 = r2.1 ∧
    lookupFile r1.2.2.2 r1.2.2.1 = some (fitPre (train.map Row.features)) ∧
    lookupFile r2.2.2.2 r2.2.2.1 = some (fitPre (train.map Row.features)) := by
  rw [initiate_ok_iff] at h1 h2
  obtain ⟨test1, rfl⟩ := body_ok_test_read h1
  obtain ⟨test2, rfl⟩ := body_ok_test_read h2
  rw [initiateBody_ok_iff] at h1 h2
  obtain ⟨p1, ftr1, fte1, hp1, htr1, hte1, rfl⟩ := h1
  obtain ⟨p2, ftr2, fte2, hp2, htr2, hte2, rfl⟩ := h2
  obtain ⟨rfl, -⟩ := fit_ok_elim hp1
  obtain ⟨rfl, -⟩ := fit_ok_elim hp2
  rw [htr1] at htr2
  cases htr2
  exact ⟨rfl, lookupFile_save _ _ _, lookupFile_save _ _ _⟩

/-- Concrete instance for the C1 theorem: two runs on the training table
[rowA, rowB] whose test tables differ ([rowA] versus [rowB]) return the
same training matrix and record the same fitted preprocessor state. -/
theorem fit_on_training_features_only_witness :
    (initiate_data_transformation (.ok [rowA, rowB]) (.ok [rowA]) []).map
        (fun r => (r.1, lookupFile r.2.2.2 r.2.2.1)) =
      (initiate_data_transformation (.ok [rowA, rowB]) (.ok [rowB]) []).map
        (fun r => (r.1, lookupFile r.2.2.2 r.2.2.1)) := by
  obtain ⟨r1, h1⟩ := exists_ok_of_isOkE
    (e := initiate_data_transformation (.ok [rowA, rowB]) (.ok [rowA]) [])
    (by with_unfolding_all decide)
  obtain ⟨r2, h2⟩ := exists_ok_of_isOkE
    (e := initiate_data_transformation (.ok [rowA, rowB]) (.ok [rowB]) [])
    (by with_unfolding_all decide)
  have hc := fit_on_training_features_only [rowA, rowB] (.ok [rowA]) (.ok [rowB])
    [] [] r1 r2 h1 h2
  rw [h1, h2]
  simp only [Except.map]
  rw [hc.1, hc.2.1, hc.2.2]

/-- C5: each input table is split into the feature columns (everything but
`math_score`) and the `math_score` target column; each returned matrix is
the transformed feature matrix of that table with the raw target values
appended as the final column, in the input row order, with the input row
count. -/
theorem target_split_and_append (train test : List Row) (fs : FileSys)
    (tr te : List (List ℚ)) (pth : String) (fs2 : FileSys)
    (h : initiate_data_transformation (.ok train) (.ok test) fs = .ok (tr, te, pth, fs2)) :
    ∃ p ftr fte,
      Preprocessor.fit (train.map Row.features) = .ok p ∧
      p.transform (train.map Row.features) = .ok ftr ∧
      p.transform (test.map Row.features) = .ok fte ∧
      tr = List.zipWith (fun r t => r ++ [t]) ftr (train.map Row.math_score) ∧
      te = List.zipWith (fun r t => r ++ [t]) fte (test.map Row.math_score) ∧
      tr.length = train.length ∧ te.length = test.length := by
  rw [initiate_ok_iff, initiateBody_ok_iff] at h
  obtain ⟨p, ftr, fte, hp, htr, hte, heq⟩ := h
  simp only [Prod.mk.injEq] at heq
  obtain ⟨rfl, rfl, rfl, rfl⟩ := heq
  refine ⟨p, ftr, fte, hp, htr, hte, rfl, rfl, ?_, ?_⟩
  · rw [List.length_zipWith, mapE_ok_length htr, List.length_map, List.length_map, min_self]
  · rw [List.length_zipWith, mapE_ok_length hte, List.length_map, List.length_map, min_self]

/-- Concrete instance for the C5 theorem: on the training table
[rowA, rowB] and test table [rowA], the returned matrices have the input
row counts, and each returned row ends with the raw target value of its
input row. -/
theorem target_split_and_append_witness :
    (initiate_data_transformation (.ok [rowA, rowB]) (.ok [rowA]) []).map
      (fun r => (r.1.length, r.2.1.length, r.1.map (fun row => row.getLastD 0),
        r.2.1.map (fun row => row.getLastD 0))) = .ok (2, 1, [50, 75], [50]) := by
  obtain ⟨res, hres⟩ := exists_ok_of_isOkE
    (e := initiate_data_transformation (.ok [rowA, rowB]) (.ok [rowA]) [])
    (by with_unfolding_all decide)
  obtain ⟨tr, te, pth, fs2⟩ := res
  have hc := target_split_and_append [rowA, rowB] [rowA] [] tr te pth fs2 hres
  obtain ⟨p, ftr, fte, hp, htr, hte, htreq, hteeq, hlen1, hlen2⟩ := hc
  rw [hres]
  simp only [Except.map]
  have h1 : tr.length = 2 := by
    rw [hlen1]
    rfl
  have h2 : te.length = 1 := by
    rw [hlen2]
    rfl
  have h3 : tr.map (fun row => row.getLastD 0) = [50, 75] := by
    have hftr : ftr.length = 2 := by
      rw [mapE_ok_length htr]
      rfl
    rcases ftr with _ | ⟨a, _ | ⟨b, _ | _⟩⟩ <;> simp at hftr
    rw [htreq]
    simp only [List.map_cons, List.zipWith_cons_cons, List.map_nil, List.zipWith_nil_right,
      List.getLastD_concat]
    exact rfl
  have h4 : te.map (fun row => row.getLastD 0) = [50] := by
    have hfte : fte.length = 1 := by
      rw [mapE_ok_length hte]
      rfl
    rcases fte with _ | ⟨a, _ | _⟩ <;> simp at hfte
    rw [hteeq]
    simp only [List.map_cons, List.zipWith_cons_cons, List.map_nil, List.zipWith_nil_right,
      List.getLastD_concat]
    exact rfl
  rw [h1, h2, h3, h4]

/-- C6: on success the driver returns the training matrix, the test matrix
and the artifact path, where the path is the fixed relative path
`artifacts/preprocessor.pkl` and the fitted preprocessor has been recorded
at that path in the file store before the call returns. -/
theorem artifact_path_and_serialization (train test : List Row) (fs : FileSys)
    (tr te : List (List ℚ)) (pth : String) (fs2 : FileSys)
    (h : initiate_data_transformation (.ok train) (.ok test) fs = .ok (tr, te, pth, fs2)) :
    pth = "artifacts/preprocessor.pkl" ∧
    ∃ p, Preprocessor.fit (train.map Row.features) = .ok p ∧
      lookupFile fs2 pth = some p := by
  rw [initiate_ok_iff, initiateBody_ok_iff] at h
  obtain ⟨p, ftr, fte, hp, htr, hte, heq⟩ := h
  simp only [Prod.mk.injEq] at heq
  obtain ⟨rfl, rfl, rfl, rfl⟩ := heq
  exact ⟨rfl, p, hp, lookupFile_save _ _ _⟩

/-- Concrete instance for the C6 theorem: on the training table
[rowA, rowB] and test table [rowA], the returned path is
`artifacts/preprocessor.pkl` and an object is recorded there. -/
theorem artifact_path_witness :
    (initiate_data_transformation (.ok [rowA, rowB]) (.ok [rowA]) []).map
      (fun r => (r.2.2.1, (lookupFile r.2.2.2 r.2.2.1).isSome)) =
      .ok ("artifacts/preprocessor.pkl", true) := by
  obtain ⟨res, hres⟩ := exists_ok_of_isOkE
    (e := initiate_data_transformation (.ok [rowA, rowB]) (.ok [rowA]) [])
    (by with_unfolding_all decide)
  obtain ⟨tr, te, pth, fs2⟩ := res
  have hc := artifact_path_and_serialization [rowA, rowB] [rowA] [] tr te pth fs2 hres
  obtain ⟨hpth, p, -, hlook⟩ := hc
  rw [hpth] at hlook
  rw [hres]
  simp [Except.map, hpth, hlook]

/-- C2: on success, every row of both returned matrices has column count
equal to the number of numeric columns (2), plus the sum over the five
categorical columns of the number of distinct categories observed in the
training data for that column, plus 1 for the appended target; stated for
training tables in which every categorical column has at least one
observed (non-missing) value. -/
theorem output_column_count (train test : List Row) (fs : FileSys)
    (tr te : List (List ℚ)) (pth : String) (fs2 : FileSys)
    (h : initiate_data_transformation (.ok train) (.ok test) fs = .ok (tr, te, pth, fs2))
    (hobs : ∀ c : CatCol, observedCatValues c (train.map Row.features) ≠ []) :
    (∀ row ∈ tr, row.length =
      2 + ((categorical_columns.map
        (fun c => (observedCatValues c (train.map Row.features)).dedup.length)).sum) + 1) ∧
    (∀ row ∈ te, row.length =
      2 + ((categorical_columns.map
        (fun c => (observedCatValues c (train.map Row.features)).dedup.length)).sum) + 1) := by
  rw [initiate_ok_iff, initiateBody_ok_iff] at h
  obtain ⟨p, ftr, fte, hp, htr, hte, heq⟩ := h
  simp only [Prod.mk.injEq] at heq
  obtain ⟨rfl, rfl, rfl, rfl⟩ := heq
  obtain ⟨rfl, -⟩ := fit_ok_elim hp
  have hsum : categorical_columns.map
      (fun c => (fitCatCol ((train.map Row.features).map (catSel c))).categories.length) =
      categorical_columns.map
      (fun c => (observedCatValues c (train.map Row.features)).dedup.length) := by
    apply List.map_congr_left
    intro c _
    exact fitCatCol_categories_length _ (hobs c)
  constructor <;> intro row hrow
  · obtain ⟨a, ha, b, rfl⟩ := mem_zipWith_append hrow
    obtain ⟨x, hx, hfx⟩ := mapE_ok_mem htr ha
    have hlen := transformRow_fitPre_length hfx
    rw [List.length_append, hlen, hsum]
    rfl
  · obtain ⟨a, ha, b, rfl⟩ := mem_zipWith_append hrow
    obtain ⟨x, hx, hfx⟩ := mapE_ok_mem hte ha
    have hlen := transformRow_fitPre_length hfx
    rw [List.length_append, hlen, hsum]
    rfl

/-- Concrete instance for the C2 theorem: on the training table
[rowA, rowB] (two observed categories per categorical column) and test
table [rowA], every row of both returned matrices has
2 + (2+2+2+2+2) + 1 = 13 columns. -/
theorem output_column_count_witness :
    (initiate_data_transformation (.ok [rowA, rowB]) (.ok [rowA]) []).map
      (fun r => (r.1.all (fun row => row.length == 13),
                 r.2.1.all (fun row => row.length == 13))) = .ok (true, true) := by
  obtain ⟨res, hres⟩ := exists_ok_of_isOkE
    (e := initiate_data_transformation (.ok [rowA, rowB]) (.ok [rowA]) [])
    (by with_unfolding_all decide)
  obtain ⟨tr, te, pth, fs2⟩ := res
  have hobs : ∀ c : CatCol, observedCatValues c ([rowA, rowB].map Row.features) ≠ [] := by
    intro c
    cases c <;> with_unfolding_all decide
  have hc := output_column_count [rowA, rowB] [rowA] [] tr te pth fs2 hres hobs
  have hN : 2 + ((categorical_columns.map
      (fun c => (observedCatValues c ([rowA, rowB].map Row.features)).dedup.length)).sum) + 1
      = 13 := by
    with_unfolding_all decide
  rw [hres]
  simp only [Except.map]
  have h1 : tr.all (fun row => row.length == 13) = true := by
    rw [List.all_eq_true]
    intro row hrow
    have hl := hc.1 row hrow
    rw [hN] at hl
    simpa using hl
  have h2 : te.all (fun row => row.length == 13) = true := by
    rw [List.all_eq_true]
    intro row hrow
    have hl := hc.2 row hrow
    rw [hN] at hl
    simpa using hl
  rw [h1, h2]

/-- C9: the end-to-end scenario: on a 100-row training table and a 20-row
test table sharing the schema (every test row also occurs in training),
the driver raises no exception, returns matrices with 100 and 20 rows, and
records the fitted preprocessor at the configured artifact path. -/
theorem end_to_end_scenario_100_20 :
    trainScenario.length = 100 ∧ testScenario.length = 20 ∧
    ∃ tr te fs2,
      initiate_data_transformation (.ok trainScenario) (.ok testScenario) [] =
        .ok (tr, te, "artifacts/preprocessor.pkl", fs2) ∧
      tr.length = 100 ∧ te.length = 20 ∧
      lookupFile fs2 "artifacts/preprocessor.pkl" =
        some (fitPre (trainScenario.map Row.features)) := by
  have hlen1 : trainScenario.length = 100 := by simp [trainScenario]
  have hlen2 : testScenario.length = 20 := by simp [testScenario]
  have hne : trainScenario.map Row.features ≠ [] := by simp [trainScenario]
  have hfit : Preprocessor.fit (trainScenario.map Row.features) =
      .ok (fitPre (trainScenario.map Row.features)) := fit_ok_of_ne_nil hne
  obtain ⟨ftr, htr⟩ := transform_fitPre_ok (trainScenario.map Row.features)
    (trainScenario.map Row.features) (fun r hr => hr)
  have hsub : ∀ r ∈ testScenario.map Row.features, r ∈ trainScenario.map Row.features := by
    intro r hr
    obtain ⟨x, hx, rfl⟩ := List.mem_map.mp hr
    have hx2 : x = rowA := by simpa [testScenario, List.mem_replicate] using hx
    subst hx2
    apply List.mem_map.mpr
    refine ⟨rowA, ?_, rfl⟩
    simp [trainScenario, List.mem_replicate]
  obtain ⟨fte, hte⟩ := transform_fitPre_ok (trainScenario.map Row.features)
    (testScenario.map Row.features) hsub
  refine ⟨hlen1, hlen2,
    List.zipWith (fun r t => r ++ [t]) ftr (trainScenario.map Row.math_score),
    List.zipWith (fun r t => r ++ [t]) fte (testScenario.map Row.math_score),
    save_object data_transformation_config.preprocessor_obj_file_path
      (fitPre (trainScenario.map Row.features)) [],
    ?_, ?_, ?_, ?_⟩
  · rw [initiate_ok_iff, initiateBody_ok_iff]
    exact ⟨fitPre (trainScenario.map Row.features), ftr, fte, hfit, htr, hte, rfl⟩
  · rw [List.length_zipWith, mapE_ok_length htr, List.length_map, List.length_map,
      min_self, hlen1]
  · rw [List.length_zipWith, mapE_ok_length hte, List.length_map, List.length_map,
      min_self, hlen2]
  · exact lookupFile_save _ _ _

/-- C10: if some test row has, in some categorical column, a non-missing
value that is not among the categories fitted from the training table, the
one-hot encoder raises during the transform of the test features, and the
call surfaces this as the wrapped exception whose cause is an
unknown-category error. -/
theorem unseen_test_category_raises (train test : List Row) (fs : FileSys)
    (r : Row) (c : CatCol) (v : String)
    (htrain : train ≠ [])
    (hr : r ∈ test)
    (hv : catSel c r.features = some v)
    (hnot : v ∉ (catFitOf (fitPre (train.map Row.features)) c).categories) :
    ∃ s, initiate_data_transformation (.ok train) (.ok test) fs =
      .error { cause := PyError.unknownCategory s,
               context := "initiate_data_transformation" } := by
  have hne : train.map Row.features ≠ [] := by simpa using htrain
  have hfit := fit_ok_of_ne_nil hne
  obtain ⟨ftr, htr⟩ := transform_fitPre_ok (train.map Row.features)
    (train.map Row.features) (fun x hx => hx)
  have hbad : ∀ y, transformRow (fitPre (train.map Row.features)) r.features ≠ .ok y := by
    intro y hy
    obtain ⟨blocks, hb, -⟩ := transformRow_ok_elim hy
    obtain ⟨z, hz⟩ := mapE_ok_forall hb c (mem_categorical_columns c)
    have hmem := (transformCatCol_ok_iff _ _).mp ⟨z, hz⟩
    rw [hv] at hmem
    exact hnot (by simpa using hmem)
  have hmemtest : r.features ∈ test.map Row.features := List.mem_map.mpr ⟨r, hr, rfl⟩
  obtain ⟨e, hte⟩ := mapE_not_ok hmemtest hbad
  obtain ⟨x, -, hxe⟩ := mapE_error_mem hte
  obtain ⟨s, rfl⟩ := transformRow_error hxe
  refine ⟨s, ?_⟩
  apply initiate_of_body_error
  rw [initiateBody_eq]
  show (Preprocessor.fit (train.map Row.features)).bind _ = _
  rw [hfit]
  show ((fitPre (train.map Row.features)).transform (train.map Row.features)).bind _ = _
  rw [htr]
  show ((fitPre (train.map Row.features)).transform (test.map Row.features)).bind _ = _
  have hte2 : (fitPre (train.map Row.features)).transform (test.map Row.features) =
      .error (PyError.unknownCategory s) := hte
  rw [hte2]
  rfl

/-- Concrete instance for the C10 theorem: the test row `rowU` carries the
gender value "other", unseen in the training table [rowA], so the call
returns the wrapped unknown-category error. -/
theorem unseen_test_category_witness :
    ∃ s, initiate_data_transformation (.ok [rowA]) (.ok [rowU]) [] =
      .error { cause := PyError.unknownCategory s,
               context := "initiate_data_transformation" } := by
  apply unseen_test_category_raises [rowA] [rowU] [] rowU CatCol.gender "other"
  · with_unfolding_all decide
  · with_unfolding_all decide
  · rfl
  · with_unfolding_all decide
